import Mathlib

/-!
Shallow embedding of `src/python/src/mrr_calculator.py`.

The module computes, from the four corner points of a minimum rotated
rectangle, the rotation angle (in integer degrees, folded into [0, 180))
of the rectangle's long side, and the (length, width) pair of its two
adjacent side lengths.  Points are modelled as pairs of reals,
`math.dist` as the Euclidean distance, Python's `round` as
round-half-to-even on reals, the integer/float `%` with positive modulus
as `a - b * ⌊a / b⌋`, and the `while degree < 0` loop as a well-founded
recursion.
-/

noncomputable section

namespace MRR

/-- A 2D point `(x, y)`, real-valued. -/
abbrev Point : Type := ℝ × ℝ

/-- The constant `VERTICAL_THRESHOLD = 0.001`: if the two endpoints' x values are at
most this far apart, the side is treated as vertical. -/
def VERTICAL_THRESHOLD : ℝ := 0.001

/-- Python's `math.dist` for 2D points: the Euclidean distance. -/
def dist (p q : Point) : ℝ :=
  Real.sqrt ((p.1 - q.1) ^ 2 + (p.2 - q.2) ^ 2)

/-- The ordered four corners of the minimum rotated rectangle:
`box[0]`, `box[1]`, `box[2]`, `box[3]` of the Python code. -/
structure RectangleCorners where
  c0 : Point
  c1 : Point
  c2 : Point
  c3 : Point

/-- Python's `round` on a real: round half to even (banker's rounding),
returning an integer. -/
def pyround (x : ℝ) : ℤ :=
  if Int.fract x = 1 / 2 then (if Even ⌊x⌋ then ⌊x⌋ else ⌊x⌋ + 1)
  else round x

/-- Python's `%` for a real (or integer) left operand and positive real
modulus: `a - b * ⌊a / b⌋`, the floor-division remainder. -/
def pymod (a b : ℝ) : ℝ := a - b * ⌊a / b⌋

/-- The `while degree < 0: degree += 180` loop of `restrict_0_to_180`:
repeatedly add 180 while the value is negative. -/
def restrictLoop (degree : ℝ) : ℝ :=
  if h : degree < 0 then restrictLoop (degree + 180) else degree
termination_by ⌈-degree⌉₊
decreasing_by
  have h1 : (0 : ℝ) < -degree := by linarith
  have h2 : 0 < ⌈-degree⌉₊ := Nat.ceil_pos.mpr h1
  have h3 : ⌈-(degree + 180)⌉₊ ≤ ⌈-degree⌉₊ - 1 := by
    rw [Nat.ceil_le]
    have hc : ((⌈-degree⌉₊ - 1 : ℕ) : ℝ) = (⌈-degree⌉₊ : ℝ) - 1 := by
      push_cast [Nat.cast_sub h2]
      ring
    rw [hc]
    have hle : -degree ≤ (⌈-degree⌉₊ : ℝ) := Nat.le_ceil _
    linarith
  omega

/-- The function `restrict_0_to_180`: add 180 while negative, then reduce `% 180`. -/
def restrict_0_to_180 (degree : ℝ) : ℝ :=
  pymod (restrictLoop degree) 180

/-- Local value `len_side_1` of both functions: distance from corner 0 to corner 1. -/
def len_side_1 (box : RectangleCorners) : ℝ := dist box.c0 box.c1

/-- Local value `len_side_2` of both functions: distance from corner 0 to corner 3. -/
def len_side_2 (box : RectangleCorners) : ℝ := dist box.c0 box.c3

/-- Local value `end_pt` of `get_mrr_angle_of_long_side`: corner 1 if
`len_side_1 >= len_side_2`, else corner 3. -/
def end_pt (box : RectangleCorners) : Point :=
  if len_side_2 box ≤ len_side_1 box then box.c1 else box.c3

/-- Local value `x_dist = start_pt[0] - end_pt[0]`. -/
def x_dist (box : RectangleCorners) : ℝ := box.c0.1 - (end_pt box).1

/-- Local value `y_dist = start_pt[1] - end_pt[1]`. -/
def y_dist (box : RectangleCorners) : ℝ := box.c0.2 - (end_pt box).2

/-- Local value `slope = y_dist / x_dist`, the rise over run. -/
def slope (box : RectangleCorners) : ℝ := y_dist box / x_dist box

/-- The function `get_mrr_angle_of_long_side`: the rotation, in integer degrees folded
into [0, 180), of the long side of the minimum rotated rectangle whose
corners are given.  Returns 90 directly when the selected side is within
`VERTICAL_THRESHOLD` of vertical; otherwise takes the arctangent of the
slope, converts radians to degrees (`np.rad2deg`), rounds, and folds. -/
def get_mrr_angle_of_long_side (box : RectangleCorners) : ℝ :=
  if |x_dist box| ≤ VERTICAL_THRESHOLD then 90
  else
    restrict_0_to_180
      ((pyround (Real.arctan (slope box) * (180 / Real.pi)) : ℤ) : ℝ)

/-- The function `get_mrr_dims`: the (length, width) of the minimum rotated rectangle,
the longer of the two adjacent sides reported first. -/
def get_mrr_dims (box : RectangleCorners) : ℝ × ℝ :=
  if len_side_2 box ≤ len_side_1 box then (len_side_1 box, len_side_2 box)
  else (len_side_2 box, len_side_1 box)

/-- Rotation of a point by 180 degrees about a center `c`:
`p ↦ 2c - p`. -/
def rotate180 (c p : Point) : Point :=
  (2 * c.1 - p.1, 2 * c.2 - p.2)

/-- Rotation by 180 degrees about `c` applied to all four corners. -/
def rotate180Box (c : Point) (box : RectangleCorners) : RectangleCorners :=
  ⟨rotate180 c box.c0, rotate180 c box.c1, rotate180 c box.c2, rotate180 c box.c3⟩

/-- Translation of a point by a vector `t`. -/
def translate (t p : Point) : Point := (p.1 + t.1, p.2 + t.2)

/-- Translation by `t` applied to all four corners. -/
def translateBox (t : Point) (box : RectangleCorners) : RectangleCorners :=
  ⟨translate t box.c0, translate t box.c1, translate t box.c2, translate t box.c3⟩

/-- Rotation of a point about the origin by an angle `θ` in radians. -/
def rot (θ : ℝ) (p : Point) : Point :=
  (p.1 * Real.cos θ - p.2 * Real.sin θ, p.1 * Real.sin θ + p.2 * Real.cos θ)

/-- The scenario box: the base points `[[-4,1],[4,1],[4,-1],[-4,-1]]`
each rotated by exactly 60 degrees (π/3 radians) about the origin. -/
def scenario60Box : RectangleCorners :=
  ⟨rot (Real.pi / 3) (-4, 1), rot (Real.pi / 3) (4, 1),
   rot (Real.pi / 3) (4, -1), rot (Real.pi / 3) (-4, -1)⟩

/-! Properties of the angle normalization. -/

/-- The while loop terminates with a nonnegative value obtained from the
input by finitely many additions of 180. -/
theorem restrictLoop_spec (d : ℝ) :
    0 ≤ restrictLoop d ∧ ∃ n : ℕ, restrictLoop d = d + 180 * n := by
  by_cases h : d < 0
  · rw [restrictLoop, dif_pos h]
    obtain ⟨h0, n, hn⟩ := restrictLoop_spec (d + 180)
    refine ⟨h0, n + 1, ?_⟩
    rw [hn]
    push_cast
    ring
  · rw [restrictLoop, dif_neg h]
    exact ⟨le_of_not_lt h, 0, by push_cast; ring⟩
termination_by ⌈-d⌉₊
decreasing_by
  have h1 : (0 : ℝ) < -d := by linarith
  have h2 : 0 < ⌈-d⌉₊ := Nat.ceil_pos.mpr h1
  have h3 : ⌈-(d + 180)⌉₊ ≤ ⌈-d⌉₊ - 1 := by
    rw [Nat.ceil_le]
    have hc : ((⌈-d⌉₊ - 1 : ℕ) : ℝ) = (⌈-d⌉₊ : ℝ) - 1 := by
      push_cast [Nat.cast_sub h2]
      ring
    rw [hc]
    have hle : -d ≤ (⌈-d⌉₊ : ℝ) := Nat.le_ceil _
    linarith
  omega

/-- The floor-division remainder by 180 lies in `[0, 180)`. -/
theorem pymod_mem_Ico (a : ℝ) : pymod a 180 ∈ Set.Ico (0 : ℝ) 180 := by
  unfold pymod
  constructor
  · have h : (⌊a / 180⌋ : ℝ) ≤ a / 180 := Int.floor_le (a / 180)
    nlinarith
  · have h : a / 180 < ⌊a / 180⌋ + 1 := Int.lt_floor_add_one (a / 180)
    nlinarith

/-- The function `restrict_0_to_180` lands in `[0, 180)`. -/
theorem restrict_0_to_180_mem_Ico (d : ℝ) :
    restrict_0_to_180 d ∈ Set.Ico (0 : ℝ) 180 :=
  pymod_mem_Ico _

/-- The function `restrict_0_to_180` changes its input by an integer multiple of 180. -/
theorem restrict_0_to_180_sub_eq (d : ℝ) :
    ∃ k : ℤ, restrict_0_to_180 d = d + 180 * k := by
  obtain ⟨h0, n, hn⟩ := restrictLoop_spec d
  refine ⟨n - ⌊restrictLoop d / 180⌋, ?_⟩
  unfold restrict_0_to_180 pymod
  rw [hn]
  push_cast
  ring

/-- On an integer input, `restrict_0_to_180` returns an integer. -/
theorem restrict_0_to_180_int (m : ℤ) :
    ∃ z : ℤ, restrict_0_to_180 (m : ℝ) = (z : ℝ) := by
  obtain ⟨k, hk⟩ := restrict_0_to_180_sub_eq (m : ℝ)
  refine ⟨m + 180 * k, ?_⟩
  rw [hk]
  push_cast
  ring

/-- On an input already in `[0, 180)`, `restrict_0_to_180` is the
identity. -/
theorem restrict_0_to_180_of_mem (d : ℝ) (h0 : 0 ≤ d) (h1 : d < 180) :
    restrict_0_to_180 d = d := by
  unfold restrict_0_to_180
  rw [restrictLoop, dif_neg (not_lt.mpr h0)]
  unfold pymod
  have hf : ⌊d / 180⌋ = 0 := by
    rw [Int.floor_eq_zero_iff]
    constructor
    · positivity
    · rw [div_lt_one (by norm_num : (0:ℝ) < 180)]
      exact h1
  rw [hf]
  push_cast
  ring

/-- Claim C6.  For every real (or integer) input `d`, `restrict_0_to_180`
terminates (it is a total function defined by well-founded recursion on
the loop) and returns a value in `[0, 180)` that differs from `d` by an
integer multiple of 180, i.e. the canonical 180-periodic fold of `d`. -/
theorem restrict_0_to_180_correct (d : ℝ) :
    restrict_0_to_180 d ∈ Set.Ico (0 : ℝ) 180 ∧
    ∃ k : ℤ, restrict_0_to_180 d = d + 180 * k :=
  ⟨restrict_0_to_180_mem_Ico d, restrict_0_to_180_sub_eq d⟩

/-- Claim C1.  For every 4-corner input, `get_mrr_angle_of_long_side`
returns an integer value lying in the half-open interval `[0, 180)`:
both the vertical-branch result 90 and the slope-path result
`restrict_0_to_180 (pyround ...)` are integers in that range. -/
theorem angle_int_mem_Ico (box : RectangleCorners) :
    (∃ n : ℤ, get_mrr_angle_of_long_side box = (n : ℝ)) ∧
    get_mrr_angle_of_long_side box ∈ Set.Ico (0 : ℝ) 180 := by
  unfold get_mrr_angle_of_long_side
  by_cases h : |x_dist box| ≤ VERTICAL_THRESHOLD
  · rw [if_pos h]
    refine ⟨⟨90, by push_cast; ring⟩, ?_⟩
    constructor <;> norm_num
  · rw [if_neg h]
    exact ⟨restrict_0_to_180_int _, restrict_0_to_180_mem_Ico _⟩

/-! Evaluating distances at concrete points. -/

/-- Evaluation rule for `dist` at explicit coordinates. -/
theorem dist_eval (x1 y1 x2 y2 d : ℝ) (hd : 0 ≤ d)
    (h : (x1 - x2) ^ 2 + (y1 - y2) ^ 2 = d ^ 2) :
    dist (x1, y1) (x2, y2) = d := by
  unfold dist
  rw [show ((x1, y1) : Point).1 - ((x2, y2) : Point).1 = x1 - x2 from rfl,
    show ((x1, y1) : Point).2 - ((x2, y2) : Point).2 = y1 - y2 from rfl, h,
    Real.sqrt_sq hd]

/-- Distances given by `dist` are nonnegative. -/
theorem dist_nonneg' (p q : Point) : 0 ≤ dist p q := Real.sqrt_nonneg _

/-! The vertical branch and the side selection. -/

/-- Claim C3.  Whenever the selected long-side endpoint has its x value
within `VERTICAL_THRESHOLD` of corner 0's, the function returns exactly
90 (the slope division is bypassed); and whenever the slope path is
taken (`VERTICAL_THRESHOLD < |x_dist|`), the divisor `x_dist` is
nonzero, so division by zero is unreachable. -/
theorem angle_vertical_branch (box : RectangleCorners) :
    (|x_dist box| ≤ VERTICAL_THRESHOLD → get_mrr_angle_of_long_side box = 90) ∧
    (VERTICAL_THRESHOLD < |x_dist box| → x_dist box ≠ 0) := by
  constructor
  · intro h
    unfold get_mrr_angle_of_long_side
    rw [if_pos h]
  · intro h hx
    rw [hx] at h
    rw [abs_zero] at h
    unfold VERTICAL_THRESHOLD at h
    norm_num at h

/-- Witness for claim C3: a rectangle with an exactly vertical long side
(corners (0,0), (0,4), (2,4), (2,0)) satisfies the vertical test and the
function returns 90. -/
theorem angle_vertical_branch_witness :
    |x_dist ⟨(0, 0), (0, 4), (2, 4), (2, 0)⟩| ≤ VERTICAL_THRESHOLD ∧
    get_mrr_angle_of_long_side ⟨(0, 0), (0, 4), (2, 4), (2, 0)⟩ = 90 := by
  have e1 : len_side_1 ⟨(0, 0), (0, 4), (2, 4), (2, 0)⟩ = 4 :=
    dist_eval 0 0 0 4 4 (by norm_num) (by norm_num)
  have e2 : len_side_2 ⟨(0, 0), (0, 4), (2, 4), (2, 0)⟩ = 2 :=
    dist_eval 0 0 2 0 2 (by norm_num) (by norm_num)
  have ee : end_pt ⟨(0, 0), (0, 4), (2, 4), (2, 0)⟩ = ((0 : ℝ), (4 : ℝ)) := by
    unfold end_pt
    rw [e1, e2, if_pos (by norm_num : (2 : ℝ) ≤ 4)]
  have ex : x_dist ⟨(0, 0), (0, 4), (2, 4), (2, 0)⟩ = 0 := by
    unfold x_dist
    rw [ee]
    norm_num
  have h : |x_dist ⟨(0, 0), (0, 4), (2, 4), (2, 0)⟩| ≤ VERTICAL_THRESHOLD := by
    rw [ex, abs_zero]
    unfold VERTICAL_THRESHOLD
    norm_num
  exact ⟨h, (angle_vertical_branch _).1 h⟩

/-- Claim C4.  The direction endpoint is selected deterministically:
corner 1 when `dist(corner0, corner1) >= dist(corner0, corner3)`,
corner 3 otherwise; an exact tie (a square) selects corner 1. -/
theorem end_pt_deterministic (box : RectangleCorners) :
    (dist box.c0 box.c3 ≤ dist box.c0 box.c1 → end_pt box = box.c1) ∧
    (dist box.c0 box.c1 < dist box.c0 box.c3 → end_pt box = box.c3) ∧
    (dist box.c0 box.c1 = dist box.c0 box.c3 → end_pt box = box.c1) := by
  refine ⟨?_, ?_, ?_⟩
  · intro h
    unfold end_pt len_side_1 len_side_2
    rw [if_pos h]
  · intro h
    unfold end_pt len_side_1 len_side_2
    rw [if_neg (not_le.mpr h)]
  · intro h
    unfold end_pt len_side_1 len_side_2
    rw [if_pos (le_of_eq h.symm)]

/-- Witness for claim C4: on the unit square with corners (0,0), (1,0),
(1,1), (0,1) the two side lengths tie and corner 1 is selected. -/
theorem end_pt_deterministic_witness :
    dist ((0 : ℝ), (0 : ℝ)) ((1 : ℝ), (0 : ℝ)) =
      dist ((0 : ℝ), (0 : ℝ)) ((0 : ℝ), (1 : ℝ)) ∧
    end_pt ⟨(0, 0), (1, 0), (1, 1), (0, 1)⟩ =
      (⟨(0, 0), (1, 0), (1, 1), (0, 1)⟩ : RectangleCorners).c1 := by
  have h : dist ((0 : ℝ), (0 : ℝ)) ((1 : ℝ), (0 : ℝ)) =
      dist ((0 : ℝ), (0 : ℝ)) ((0 : ℝ), (1 : ℝ)) := by
    rw [dist_eval 0 0 1 0 1 (by norm_num) (by norm_num),
      dist_eval 0 0 0 1 1 (by norm_num) (by norm_num)]
  exact ⟨h, (end_pt_deterministic ⟨(0, 0), (1, 0), (1, 1), (0, 1)⟩).2.2 h⟩

/-- Claim C5.  `get_mrr_dims` returns the pair
`(max side_a side_b, min side_a side_b)` of the two adjacent side
lengths; the returned length is always at least the returned width and
both are nonnegative (and for a square, `max = min`, so they agree). -/
theorem dims_max_min (box : RectangleCorners) :
    get_mrr_dims box =
      (max (len_side_1 box) (len_side_2 box),
       min (len_side_1 box) (len_side_2 box)) ∧
    0 ≤ (get_mrr_dims box).2 ∧
    (get_mrr_dims box).2 ≤ (get_mrr_dims box).1 ∧
    0 ≤ (get_mrr_dims box).1 := by
  have h1 : 0 ≤ len_side_1 box := dist_nonneg' _ _
  have h2 : 0 ≤ len_side_2 box := dist_nonneg' _ _
  by_cases h : len_side_2 box ≤ len_side_1 box
  · simp only [get_mrr_dims, if_pos h]
    rw [max_eq_left h, min_eq_right h]
    exact ⟨rfl, h2, h, h1⟩
  · push_neg at h
    simp only [get_mrr_dims, if_neg (not_le.mpr h)]
    rw [max_eq_right h.le, min_eq_left h.le]
    exact ⟨rfl, h1, h.le, h2⟩

/-- Claim C8.  The angle function and the dimensions function agree on
which adjacent side is the long one: the distance from corner 0 to the
endpoint selected by the angle tie-break equals the length component
returned by `get_mrr_dims`. -/
theorem angle_dims_agree (box : RectangleCorners) :
    dist box.c0 (end_pt box) = (get_mrr_dims box).1 := by
  unfold end_pt get_mrr_dims
  by_cases h : len_side_2 box ≤ len_side_1 box
  · rw [if_pos h, if_pos h]
    rfl
  · rw [if_neg h, if_neg h]
    rfl

/-! The slope branch. -/

/-- Claim C2.  When the selected endpoint is farther than
`VERTICAL_THRESHOLD` from corner 0 in x, the function returns
`restrict_0_to_180 (pyround (arctan ((y0 - y_end) / (x0 - x_end)) * 180 / π))`,
with the displacement taken start-minus-end, and the arctangent result
converted to degrees lies strictly in `(-90, 90)`. -/
theorem angle_slope_branch (box : RectangleCorners)
    (h : VERTICAL_THRESHOLD < |x_dist box|) :
    get_mrr_angle_of_long_side box =
      restrict_0_to_180
        ((pyround (Real.arctan (y_dist box / x_dist box) * (180 / Real.pi)) : ℤ) : ℝ) ∧
    Real.arctan (y_dist box / x_dist box) * (180 / Real.pi) ∈
      Set.Ioo (-90 : ℝ) 90 := by
  constructor
  · unfold get_mrr_angle_of_long_side
    rw [if_neg (not_le.mpr h)]
    rfl
  · have hpos : 0 < 180 / Real.pi := by positivity
    have hπ : Real.pi ≠ 0 := Real.pi_ne_zero
    have h1 := Real.neg_pi_div_two_lt_arctan (y_dist box / x_dist box)
    have h2 := Real.arctan_lt_pi_div_two (y_dist box / x_dist box)
    have e1 : -(Real.pi / 2) * (180 / Real.pi) = -90 := by
      field_simp
      ring
    have e2 : Real.pi / 2 * (180 / Real.pi) = 90 := by
      field_simp
      ring
    constructor
    · calc (-90 : ℝ) = -(Real.pi / 2) * (180 / Real.pi) := e1.symm
        _ < Real.arctan (y_dist box / x_dist box) * (180 / Real.pi) :=
          mul_lt_mul_of_pos_right h1 hpos
    · calc Real.arctan (y_dist box / x_dist box) * (180 / Real.pi)
          < Real.pi / 2 * (180 / Real.pi) := mul_lt_mul_of_pos_right h2 hpos
        _ = 90 := e2

/-- Witness for claim C2: the axis-aligned rectangle with corners
(0,0), (4,0), (4,2), (0,2) takes the slope path (`|x_dist| = 4`). -/
theorem angle_slope_branch_witness :
    VERTICAL_THRESHOLD < |x_dist ⟨(0, 0), (4, 0), (4, 2), (0, 2)⟩| ∧
    (get_mrr_angle_of_long_side ⟨(0, 0), (4, 0), (4, 2), (0, 2)⟩ =
      restrict_0_to_180
        ((pyround (Real.arctan
          (y_dist ⟨(0, 0), (4, 0), (4, 2), (0, 2)⟩ /
            x_dist ⟨(0, 0), (4, 0), (4, 2), (0, 2)⟩) * (180 / Real.pi)) : ℤ) : ℝ) ∧
    Real.arctan
        (y_dist ⟨(0, 0), (4, 0), (4, 2), (0, 2)⟩ /
          x_dist ⟨(0, 0), (4, 0), (4, 2), (0, 2)⟩) * (180 / Real.pi) ∈
      Set.Ioo (-90 : ℝ) 90) := by
  have e1 : len_side_1 ⟨(0, 0), (4, 0), (4, 2), (0, 2)⟩ = 4 :=
    dist_eval 0 0 4 0 4 (by norm_num) (by norm_num)
  have e2 : len_side_2 ⟨(0, 0), (4, 0), (4, 2), (0, 2)⟩ = 2 :=
    dist_eval 0 0 0 2 2 (by norm_num) (by norm_num)
  have ee : end_pt ⟨(0, 0), (4, 0), (4, 2), (0, 2)⟩ = ((4 : ℝ), (0 : ℝ)) := by
    unfold end_pt
    rw [e1, e2, if_pos (by norm_num : (2 : ℝ) ≤ 4)]
  have ex : x_dist ⟨(0, 0), (4, 0), (4, 2), (0, 2)⟩ = -4 := by
    unfold x_dist
    rw [ee]
    norm_num
  have h : VERTICAL_THRESHOLD < |x_dist ⟨(0, 0), (4, 0), (4, 2), (0, 2)⟩| := by
    rw [ex]
    unfold VERTICAL_THRESHOLD
    rw [abs_of_nonpos (by norm_num : (-4 : ℝ) ≤ 0)]
    norm_num
  exact ⟨h, angle_slope_branch _ h⟩

/-! Invariance under 180-degree rotation and translation. -/

/-- A 180-degree rotation about any center preserves distances. -/
theorem dist_rotate180 (c p q : Point) :
    dist (rotate180 c p) (rotate180 c q) = dist p q := by
  unfold dist rotate180
  congr 1
  ring

/-- Translation preserves distances. -/
theorem dist_translate (t p q : Point) :
    dist (translate t p) (translate t q) = dist p q := by
  unfold dist translate
  congr 1
  ring

/-- The endpoint selection commutes with 180-degree rotation. -/
theorem end_pt_rotate180 (c : Point) (box : RectangleCorners) :
    end_pt (rotate180Box c box) = rotate180 c (end_pt box) := by
  unfold end_pt len_side_1 len_side_2
  have h1 : dist (rotate180Box c box).c0 (rotate180Box c box).c1 =
      dist box.c0 box.c1 := dist_rotate180 c box.c0 box.c1
  have h2 : dist (rotate180Box c box).c0 (rotate180Box c box).c3 =
      dist box.c0 box.c3 := dist_rotate180 c box.c0 box.c3
  rw [h1, h2]
  by_cases h : dist box.c0 box.c3 ≤ dist box.c0 box.c1
  · rw [if_pos h, if_pos h]
    rfl
  · rw [if_neg h, if_neg h]
    rfl

/-- The endpoint selection commutes with translation. -/
theorem end_pt_translate (t : Point) (box : RectangleCorners) :
    end_pt (translateBox t box) = translate t (end_pt box) := by
  unfold end_pt len_side_1 len_side_2
  have h1 : dist (translateBox t box).c0 (translateBox t box).c1 =
      dist box.c0 box.c1 := dist_translate t box.c0 box.c1
  have h2 : dist (translateBox t box).c0 (translateBox t box).c3 =
      dist box.c0 box.c3 := dist_translate t box.c0 box.c3
  rw [h1, h2]
  by_cases h : dist box.c0 box.c3 ≤ dist box.c0 box.c1
  · rw [if_pos h, if_pos h]
    rfl
  · rw [if_neg h, if_neg h]
    rfl

/-- The value `x_dist` negates under a 180-degree rotation of the corners. -/
theorem x_dist_rotate180 (c : Point) (box : RectangleCorners) :
    x_dist (rotate180Box c box) = -(x_dist box) := by
  unfold x_dist
  rw [end_pt_rotate180]
  show (rotate180 c box.c0).1 - (rotate180 c (end_pt box)).1 = _
  unfold rotate180
  ring

/-- The value `y_dist` negates under a 180-degree rotation of the corners. -/
theorem y_dist_rotate180 (c : Point) (box : RectangleCorners) :
    y_dist (rotate180Box c box) = -(y_dist box) := by
  unfold y_dist
  rw [end_pt_rotate180]
  show (rotate180 c box.c0).2 - (rotate180 c (end_pt box)).2 = _
  unfold rotate180
  ring

/-- The value `x_dist` is unchanged by a translation of the corners. -/
theorem x_dist_translate (t : Point) (box : RectangleCorners) :
    x_dist (translateBox t box) = x_dist box := by
  unfold x_dist
  rw [end_pt_translate]
  show (translate t box.c0).1 - (translate t (end_pt box)).1 = _
  unfold translate
  ring

/-- The value `y_dist` is unchanged by a translation of the corners. -/
theorem y_dist_translate (t : Point) (box : RectangleCorners) :
    y_dist (translateBox t box) = y_dist box := by
  unfold y_dist
  rw [end_pt_translate]
  show (translate t box.c0).2 - (translate t (end_pt box)).2 = _
  unfold translate
  ring

/-- Claim C7.  Rotating all four corners by 180 degrees about any center
`c` (each point `p` mapped to `2c - p`) yields exactly the same angle:
distances are preserved, so the same side is selected, and `x_dist` and
`y_dist` both negate, leaving the vertical test and the slope unchanged. -/
theorem angle_rotate180_invariant (box : RectangleCorners) (c : Point) :
    get_mrr_angle_of_long_side (rotate180Box c box) =
      get_mrr_angle_of_long_side box := by
  have hs : slope (rotate180Box c box) = slope box := by
    unfold slope
    rw [x_dist_rotate180, y_dist_rotate180, neg_div_neg_eq]
  unfold get_mrr_angle_of_long_side
  rw [x_dist_rotate180, abs_neg, hs]

/-- Claim C10.  Translating all four corners by any vector `t` leaves
both the angle and the dimensions unchanged, since every quantity
computed depends only on coordinate differences between corners. -/
theorem translation_invariant (box : RectangleCorners) (t : Point) :
    get_mrr_angle_of_long_side (translateBox t box) =
      get_mrr_angle_of_long_side box ∧
    get_mrr_dims (translateBox t box) = get_mrr_dims box := by
  constructor
  · have hs : slope (translateBox t box) = slope box := by
      unfold slope
      rw [x_dist_translate, y_dist_translate]
    unfold get_mrr_angle_of_long_side
    rw [x_dist_translate, hs]
  · unfold get_mrr_dims len_side_1 len_side_2
    rw [show dist (translateBox t box).c0 (translateBox t box).c1 =
        dist box.c0 box.c1 from dist_translate t box.c0 box.c1,
      show dist (translateBox t box).c0 (translateBox t box).c3 =
        dist box.c0 box.c3 from dist_translate t box.c0 box.c3]

/-! The 60-degree scenario. -/

/-- Rotation about the origin preserves distances. -/
theorem dist_rot (θ : ℝ) (p q : Point) :
    dist (rot θ p) (rot θ q) = dist p q := by
  unfold dist rot
  dsimp only
  congr 1
  linear_combination
    ((p.1 - q.1) ^ 2 + (p.2 - q.2) ^ 2) * Real.sin_sq_add_cos_sq θ

/-- Python's `round` is the identity on integers. -/
theorem pyround_intCast (m : ℤ) : pyround (m : ℝ) = m := by
  unfold pyround
  rw [Int.fract_intCast, if_neg (by norm_num : ¬((0 : ℝ) = 1 / 2)),
    round_intCast]

/-- Claim C9.  On the four corners of the base rectangle
`[[-4,1],[4,1],[4,-1],[-4,-1]]` rotated by exactly 60 degrees about the
origin, `get_mrr_angle_of_long_side` returns 60 and `get_mrr_dims`
returns `(8, 2)`. -/
theorem scenario60 :
    get_mrr_angle_of_long_side scenario60Box = 60 ∧
    get_mrr_dims scenario60Box = (8, 2) := by
  have e1 : len_side_1 scenario60Box = 8 := by
    have h : len_side_1 scenario60Box =
        dist ((-4 : ℝ), (1 : ℝ)) ((4 : ℝ), (1 : ℝ)) := by
      show dist (rot (Real.pi / 3) (-4, 1)) (rot (Real.pi / 3) (4, 1)) = _
      exact dist_rot _ _ _
    rw [h, dist_eval (-4) 1 4 1 8 (by norm_num) (by norm_num)]
  have e2 : len_side_2 scenario60Box = 2 := by
    have h : len_side_2 scenario60Box =
        dist ((-4 : ℝ), (1 : ℝ)) ((-4 : ℝ), (-1 : ℝ)) := by
      show dist (rot (Real.pi / 3) (-4, 1)) (rot (Real.pi / 3) (-4, -1)) = _
      exact dist_rot _ _ _
    rw [h, dist_eval (-4) 1 (-4) (-1) 2 (by norm_num) (by norm_num)]
  have ee : end_pt scenario60Box = scenario60Box.c1 := by
    unfold end_pt
    rw [e1, e2, if_pos (by norm_num : (2 : ℝ) ≤ 8)]
  have ex : x_dist scenario60Box = -4 := by
    unfold x_dist
    rw [ee]
    show (rot (Real.pi / 3) (-4, 1)).1 - (rot (Real.pi / 3) (4, 1)).1 = -4
    unfold rot
    dsimp only
    rw [Real.cos_pi_div_three]
    ring
  have ey : y_dist scenario60Box = -(4 * Real.sqrt 3) := by
    unfold y_dist
    rw [ee]
    show (rot (Real.pi / 3) (-4, 1)).2 - (rot (Real.pi / 3) (4, 1)).2 = _
    unfold rot
    dsimp only
    rw [Real.sin_pi_div_three]
    ring
  have es : slope scenario60Box = Real.sqrt 3 := by
    unfold slope
    rw [ex, ey]
    ring
  have htan : Real.tan (Real.pi / 3) = Real.sqrt 3 := by
    rw [Real.tan_eq_sin_div_cos, Real.sin_pi_div_three, Real.cos_pi_div_three]
    ring
  have harc : Real.arctan (Real.sqrt 3) = Real.pi / 3 := by
    rw [← htan, Real.arctan_tan]
    · have := Real.pi_pos
      linarith
    · have := Real.pi_pos
      linarith
  have hdeg : Real.pi / 3 * (180 / Real.pi) = 60 := by
    have hπ : Real.pi ≠ 0 := Real.pi_ne_zero
    field_simp
    ring
  have hv : ¬(|x_dist scenario60Box| ≤ VERTICAL_THRESHOLD) := by
    rw [ex]
    unfold VERTICAL_THRESHOLD
    rw [abs_of_nonpos (by norm_num : (-4 : ℝ) ≤ 0)]
    norm_num
  constructor
  · unfold get_mrr_angle_of_long_side
    rw [if_neg hv, es, harc, hdeg,
      show (60 : ℝ) = ((60 : ℤ) : ℝ) by norm_num, pyround_intCast]
    exact restrict_0_to_180_of_mem _ (by norm_num) (by norm_num)
  · simp only [get_mrr_dims, e1, e2]
    rw [if_pos (by norm_num : (2 : ℝ) ≤ 8)]

end MRR

end
